import Mathlib

/-!
Verification development for the Hammer_Net_Calculation_Gravimetry scripts.

Shallow embedding conventions:
* Python floats are idealised as exact rationals (ℚ); `np.arange`, bounding
  boxes and averages are computed over ℚ.
* Python `round(x, 1)` and the `"%.0f"` format round half to even; this is
  modelled by `rndHalfEven` / `round1`.
* The QGIS toolkit is an external collaborator.  Its raster `identify` call is
  a structure field of `DEM`; polygon containment (`QgsGeometry.contains` on a
  sector polygon) is an explicit boolean-predicate parameter `pc`; rectangle
  extent containment is modelled from the specification's contract as a
  closed-rectangle, boundary-inclusive test (`rectContains`).
* In `create_ring` the Python variable `init_angle` accumulates
  `angle_per_compartment` by repeated addition; over ℚ its value at iteration
  `i` is exactly `i * (360 / N)`, which is how it is written here.
-/

namespace HammerNet

attribute [local semireducible] Rat.add Rat.sub Rat.mul Rat.inv

/-- A planar point (QgsPointXY) with coordinates in projected units. -/
structure Point where
  x : ℚ
  y : ℚ
deriving DecidableEq

/-- Round half to even, the tie-breaking rule of Python's round() and of the
string format "%.0f". -/
def rndHalfEven (q : ℚ) : ℤ :=
  if q - q.floor < 1/2 then q.floor
  else if (1 : ℚ)/2 < q - q.floor then q.floor + 1
  else if q.floor % 2 = 0 then q.floor else q.floor + 1

/-- Rat.floor agrees with the floor of the FloorRing instance. -/
theorem ratFloor_eq_intFloor (q : ℚ) : q.floor = ⌊q⌋ := by
  rw [Rat.floor_def', Rat.floor_def]

/-- Python round(x, 1): round to one decimal place (half to even). -/
def round1 (q : ℚ) : ℚ := (rndHalfEven (10 * q) : ℚ) / 10

/-- The attribute column name built at lines 183 and 229 of
Hammer_Net_Calculation_Gravimetry.py:
f"{inner_radius:.0f}_{outer_radius:.0f}_{num_compartments}.{i+1}". -/
def column_name (inner_radius outer_radius : ℚ) (num_compartments : ℕ) (i : ℕ) : String :=
  toString (rndHalfEven inner_radius) ++ "_" ++ toString (rndHalfEven outer_radius) ++ "_"
    ++ toString num_compartments ++ "." ++ toString (i + 1)

/-- The list of column names produced by the column-creation loop
(lines 182-189), one per compartment index i in range(num_compartments). -/
def columnNames (inner_radius outer_radius : ℚ) (N : ℕ) : List String :=
  (List.range N).map (column_name inner_radius outer_radius N)

/-- The column-creation loop of lines 182-189: for each i, the column is added
to the layer's field list only when indexFromName finds no existing field of
that name. -/
def addRingColumns (fields : List String) (inner_radius outer_radius : ℚ) (N : ℕ) :
    List String :=
  (List.range N).foldl
    (fun fs i =>
      let c := column_name inner_radius outer_radius N i
      if c ∈ fs then fs else fs ++ [c])
    fields

/-- Output PDF name of the plotting script (plot_pdf_hammer_net line 70):
pdf_file_name = f"{file_name[:-5]}.pdf", on the character list of the name.
Python's s[:-5] drops the last five characters (and yields "" when the name is
shorter), which Nat-subtraction `take` reproduces exactly. -/
def pdf_file_name (s : List Char) : List Char :=
  s.take (s.length - 5) ++ (".pdf".toList)

/-- Folding the "add if absent" step over fresh, pairwise-distinct names
appends them all. -/
theorem foldl_addIfAbsent_fresh (names : List String) :
    ∀ fields : List String, names.Nodup → (∀ c ∈ names, c ∉ fields) →
      names.foldl (fun fs c => if c ∈ fs then fs else fs ++ [c]) fields
        = fields ++ names := by
  induction names with
  | nil => intro fields _ _; simp
  | cons a tl ih =>
    intro fields hnd hf
    have ha : a ∉ fields := hf a (by simp)
    have hnd' : tl.Nodup := hnd.of_cons
    have hf' : ∀ c ∈ tl, c ∉ fields ++ [a] := by
      intro c hc
      have hca : c ≠ a := by
        intro hh
        exact (List.nodup_cons.mp hnd).1 (hh ▸ hc)
      have hcf : c ∉ fields := hf c (List.mem_cons_of_mem _ hc)
      simp [List.mem_append, hcf, hca]
    simp only [List.foldl_cons, if_neg ha]
    rw [ih (fields ++ [a]) hnd' hf']
    simp

/-- C9: for every RingSpec (inner, outer, N) the column-creation loop produces
exactly N names of the shape "{inner:.0f}_{outer:.0f}_{N}.{i+1}" (radii rounded
to whole units), all of which are added when fresh; in particular
RingSpec(53, 170, 6) yields exactly the columns "53_170_6.1" … "53_170_6.6". -/
theorem ring_columns_spec (inner_radius outer_radius : ℚ) (N : ℕ)
    (fields : List String)
    (hnodup : (columnNames inner_radius outer_radius N).Nodup)
    (hfresh : ∀ c ∈ columnNames inner_radius outer_radius N, c ∉ fields) :
    (columnNames inner_radius outer_radius N).length = N
    ∧ (∀ i, (columnNames inner_radius outer_radius N)[i]?
        = if i < N then some (column_name inner_radius outer_radius N i) else none)
    ∧ addRingColumns fields inner_radius outer_radius N
        = fields ++ columnNames inner_radius outer_radius N
    ∧ columnNames 53 170 6
        = ["53_170_6.1", "53_170_6.2", "53_170_6.3",
           "53_170_6.4", "53_170_6.5", "53_170_6.6"] := by
  refine ⟨by simp [columnNames], ?_, ?_, by decide⟩
  · intro i
    by_cases hi : i < N
    · simp [columnNames, List.getElem?_map, List.getElem?_range, hi]
    · rw [if_neg hi]
      refine List.getElem?_eq_none ?_
      simp [columnNames, Nat.le_of_not_lt hi]
  · unfold addRingColumns
    rw [show (List.range N).foldl
        (fun fs i =>
          let c := column_name inner_radius outer_radius N i
          if c ∈ fs then fs else fs ++ [c]) fields
      = (columnNames inner_radius outer_radius N).foldl
          (fun fs c => if c ∈ fs then fs else fs ++ [c]) fields from by
        rw [columnNames, List.foldl_map]]
    exact foldl_addIfAbsent_fresh _ fields hnodup hfresh

/-- Witness for ring_columns_spec at the script's own radii 53.3 and 170.1
(which round to 53 and 170) with a fresh field list. -/
theorem ring_columns_spec_witness :
    addRingColumns [] (533/10) (1701/10) 6
      = [] ++ columnNames (533/10) (1701/10) 6 :=
  (ring_columns_spec (533/10) (1701/10) 6 [] (by decide) (by decide)).2.2.1

/-- C10: the renderer's output name removes the last five characters of the
input CSV name and appends ".pdf"; since ".csv" is only four characters, the
last character of the base name is dropped too, so
"Input_points_etrs89_utm30.csv" becomes "Input_points_etrs89_utm3.pdf". -/
theorem pdf_file_name_spec :
    (∀ base : List Char,
      pdf_file_name (base ++ (".csv".toList))
        = base.take (base.length - 1) ++ (".pdf".toList))
    ∧ pdf_file_name ("Input_points_etrs89_utm30.csv".toList)
        = "Input_points_etrs89_utm3.pdf".toList
    ∧ pdf_file_name ("Input_points_etrs89_utm30.csv".toList)
        ≠ "Input_points_etrs89_utm30.pdf".toList := by
  refine ⟨?_, by decide, by decide⟩
  intro base
  unfold pdf_file_name
  have hlen : (base ++ (".csv".toList)).length = base.length + 4 := by
    simp
  rw [hlen]
  have h4 : base.length + 4 - 5 = base.length - 1 := by omega
  rw [h4, List.take_append_eq_append_take]
  have : base.length - 1 - base.length = 0 := by omega
  rw [this]
  simp

/-- Python range(a, b) over integers with step 1 (possibly empty). -/
def pyRange (a b : ℤ) : List ℤ :=
  (List.range (b - a).toNat).map (fun k : ℕ => a + (k : ℤ))

/-- The integer-degree angle list of one compartment (create_ring lines
100 and 109): range(int(init_angle), int(init_angle + angle_per_compartment)
+ 1, 1).  All angles are nonnegative here, so Python's int() truncation agrees
with the floor. -/
def angleRange (init_angle angle_per_compartment : ℚ) : List ℤ :=
  pyRange init_angle.floor ((init_angle + angle_per_compartment).floor + 1)

/-- A vertex of a sector polygon (create_ring lines 96-99, 105-108):
center + radius * (cos θ, sin θ), with the degree-indexed samplings of cosine
and sine supplied as external parameters (the code evaluates math.cos and
math.sin only at whole degrees). -/
def pointOnCircle (cosD sinD : ℤ → ℚ) (center : Point) (radius : ℚ) (a : ℤ) : Point :=
  ⟨center.x + radius * cosD a, center.y + radius * sinD a⟩

/-- One sector polygon as built by create_ring: the outer arc vertex list
followed by the reversed inner arc vertex list (line 116 concatenates them
into one closed ring). -/
structure SectorPoly where
  outer : List Point
  inner : List Point
deriving DecidableEq, Inhabited

/-- The angle list of sector i for N compartments.  In the source,
init_angle starts at 0 and accumulates angle_per_compartment = 360/N once per
iteration, so at iteration i its exact (ℚ) value is i * (360/N). -/
def sectorAngles (N i : ℕ) : List ℤ :=
  angleRange ((i : ℚ) * ((360 : ℚ) / N)) ((360 : ℚ) / N)

/-- create_ring (lines 87-119): N sector polygons, sector i tracing the outer
arc over its angle list at outer_radius and the inner arc in reverse at
inner_radius. -/
def create_ring (cosD sinD : ℤ → ℚ) (center : Point) (inner_radius outer_radius : ℚ)
    (num_compartments : ℕ) : List SectorPoly :=
  (List.range num_compartments).map fun i =>
    { outer := (sectorAngles num_compartments i).map
        (pointOnCircle cosD sinD center outer_radius),
      inner := (sectorAngles num_compartments i).reverse.map
        (pointOnCircle cosD sinD center inner_radius) }

/-- A polygon vertex list contains a zero-length edge: some vertex is
immediately followed by an identical vertex. -/
def hasZeroLengthEdge (l : List Point) : Bool :=
  (l.zip l.tail).any fun pq => decide (pq.1 = pq.2)

/-- Length of a pyRange. -/
theorem pyRange_length (a b : ℤ) : (pyRange a b).length = (b - a).toNat := by
  simp [pyRange]

/-- Head of a nonempty pyRange. -/
theorem pyRange_head (a b : ℤ) (h : a < b) : (pyRange a b).head? = some a := by
  obtain ⟨m, hm⟩ : ∃ m, (b - a).toNat = m + 1 := ⟨(b - a).toNat - 1, by omega⟩
  rw [pyRange, hm, List.range_succ_eq_map]
  simp

/-- Last element of a nonempty pyRange. -/
theorem pyRange_getLast (a b : ℤ) (h : a < b) : (pyRange a b).getLast? = some (b - 1) := by
  obtain ⟨m, hm⟩ : ∃ m, (b - a).toNat = m + 1 := ⟨(b - a).toNat - 1, by omega⟩
  rw [pyRange, hm, List.range_succ, List.map_append, List.map_singleton,
    List.getLast?_concat]
  congr 1
  omega

/-- The angle list of sector i is nonempty and runs from ⌊i·(360/N)⌋ to
⌊(i+1)·(360/N)⌋. -/
theorem sectorAngles_head_getLast (N i : ℕ) (hN : 1 ≤ N) :
    (sectorAngles N i).head? = some ⌊(i : ℚ) * ((360 : ℚ) / N)⌋
    ∧ (sectorAngles N i).getLast? = some ⌊((i : ℚ) + 1) * ((360 : ℚ) / N)⌋ := by
  have hNQ : (0 : ℚ) < (N : ℚ) := by
    exact_mod_cast Nat.lt_of_lt_of_le Nat.zero_lt_one hN
  have hΔ : (0 : ℚ) < (360 : ℚ) / N := by positivity
  have hle : ((i : ℚ) * ((360 : ℚ) / N)).floor
      < ((i : ℚ) * ((360 : ℚ) / N) + (360 : ℚ) / N).floor + 1 := by
    rw [ratFloor_eq_intFloor, ratFloor_eq_intFloor]
    have := Int.floor_le_floor (α := ℚ)
      (le_add_of_nonneg_right (le_of_lt hΔ)
        : (i : ℚ) * ((360 : ℚ) / N) ≤ (i : ℚ) * ((360 : ℚ) / N) + (360 : ℚ) / N)
    omega
  constructor
  · rw [sectorAngles, angleRange, pyRange_head _ _ hle, ratFloor_eq_intFloor]
  · rw [sectorAngles, angleRange, pyRange_getLast _ _ hle]
    have harg : (i : ℚ) * ((360 : ℚ) / N) + (360 : ℚ) / N
        = ((i : ℚ) + 1) * ((360 : ℚ) / N) := by ring
    rw [harg, ratFloor_eq_intFloor]
    congr 1
    omega

/-- C2 as stated fails: for N = 7 (360/N not an integer) the arc of sector 0
ends at the truncated angle 51°, not at 360/7 ≈ 51.43°, so sector spans are
not the exact ranges [i·(360/N), (i+1)·(360/N)). -/
theorem sector_span_claim_cex :
    ¬ (∀ N : ℕ, 1 ≤ N → ∀ i : ℕ, i < N →
        (∃ a : ℤ, (sectorAngles N i).head? = some a
            ∧ (a : ℚ) = (i : ℚ) * ((360 : ℚ) / N))
        ∧ (∃ b : ℤ, (sectorAngles N i).getLast? = some b
            ∧ (b : ℚ) = ((i : ℚ) + 1) * ((360 : ℚ) / N))) := by
  intro h
  obtain ⟨b, hb, hbv⟩ := (h 7 (by norm_num) 0 (by norm_num)).2
  rw [show (sectorAngles 7 0).getLast? = some 51 from by decide] at hb
  have hb51 : b = 51 := (Option.some.inj hb).symm
  subst hb51
  norm_num at hbv

/-- C2 (amended): the builder returns exactly N polygons; sector i is traced
over the integer-degree angle list running from ⌊i·(360/N)⌋ to
⌊(i+1)·(360/N)⌋ (equal to i·(360/N) and (i+1)·(360/N) exactly when N divides
360); consecutive sectors share their boundary angle, sector 0 starts at 0°
and sector N-1 ends at 360°, so the spans tile [0°, 360°] without gaps or
overlaps beyond the shared boundaries. -/
theorem create_ring_spans (cosD sinD : ℤ → ℚ) (center : Point)
    (inner_radius outer_radius : ℚ) (N : ℕ) (hN : 1 ≤ N) :
    (create_ring cosD sinD center inner_radius outer_radius N).length = N
    ∧ (∀ i, i < N →
        (create_ring cosD sinD center inner_radius outer_radius N)[i]?
          = some
            { outer := (sectorAngles N i).map
                (pointOnCircle cosD sinD center outer_radius),
              inner := (sectorAngles N i).reverse.map
                (pointOnCircle cosD sinD center inner_radius) })
    ∧ (∀ i : ℕ, (sectorAngles N i).head? = some ⌊(i : ℚ) * ((360 : ℚ) / N)⌋
        ∧ (sectorAngles N i).getLast? = some ⌊((i : ℚ) + 1) * ((360 : ℚ) / N)⌋)
    ∧ (∀ i : ℕ, (sectorAngles N i).getLast? = (sectorAngles N (i + 1)).head?)
    ∧ (sectorAngles N 0).head? = some 0
    ∧ (sectorAngles N (N - 1)).getLast? = some 360 := by
  have hNQ : (0 : ℚ) < (N : ℚ) := by
    exact_mod_cast Nat.lt_of_lt_of_le Nat.zero_lt_one hN
  refine ⟨by simp [create_ring], ?_, fun i => sectorAngles_head_getLast N i hN, ?_, ?_, ?_⟩
  · intro i hi
    simp [create_ring, List.getElem?_map, List.getElem?_range, hi]
  · intro i
    rw [(sectorAngles_head_getLast N i hN).2, (sectorAngles_head_getLast N (i + 1) hN).1]
    congr 2
    push_cast
    ring
  · rw [(sectorAngles_head_getLast N 0 hN).1]
    simp
  · rw [(sectorAngles_head_getLast N (N - 1) hN).2]
    have hc : ((N - 1 : ℕ) : ℚ) + 1 = (N : ℚ) := by
      rw [Nat.cast_sub hN, Nat.cast_one]
      ring
    rw [hc, mul_comm, div_mul_cancel₀ (360 : ℚ) (ne_of_gt hNQ),
      show ((360 : ℚ)) = ((360 : ℤ) : ℚ) from by norm_num, Int.floor_intCast]

/-- Witness for create_ring_spans at the script's configuration (six
compartments, radii 53.3 and 170.1, any trigonometric sampling). -/
theorem create_ring_spans_witness :
    (create_ring (fun _ => (1 : ℚ)) (fun _ => (0 : ℚ)) ⟨0, 0⟩ (533/10) (1701/10) 6).length
      = 6 :=
  (create_ring_spans (fun _ => (1 : ℚ)) (fun _ => (0 : ℚ)) ⟨0, 0⟩ (533/10) (1701/10) 6
    (by norm_num)).1

/-- A vertex list all of whose points coincide and which has at least two
entries contains a zero-length edge. -/
theorem hasZeroLengthEdge_of_const (c : Point) (l : List Point)
    (hl : 2 ≤ l.length) (hc : ∀ p ∈ l, p = c) : hasZeroLengthEdge l = true := by
  match l, hl with
  | a :: b :: t, _ =>
    have ha : a = c := hc a (by simp)
    have hb : b = c := hc b (by simp)
    subst ha
    subst hb
    simp [hasZeroLengthEdge]

/-- C6 as stated fails: with inner radius 0 the builder performs no special
case; the inner boundary of each sector degenerates into repeated copies of
the center vertex, i.e. zero-length inner boundary edges. -/
theorem zero_inner_claim_cex :
    ¬ (∀ s ∈ create_ring (fun _ => (0 : ℚ)) (fun _ => (0 : ℚ)) ⟨0, 0⟩ 0 10 4,
        hasZeroLengthEdge s.inner = false) := by
  intro h
  have hz := h ((create_ring (fun _ => (0 : ℚ)) (fun _ => (0 : ℚ)) ⟨0, 0⟩ 0 10 4).headI)
    (by decide)
  rw [show hasZeroLengthEdge
      ((create_ring (fun _ => (0 : ℚ)) (fun _ => (0 : ℚ)) ⟨0, 0⟩ 0 10 4).headI).inner
      = true from by decide] at hz
  exact Bool.noConfusion hz

/-- C6 (amended): for inner radius 0 the builder is total (no exception) and
still returns N polygons, but it does not special-case the degenerate inner
arc: every inner-arc vertex equals the center, the inner arc keeps its full
vertex count (at least two vertices for N ≤ 360), and hence every sector has
zero-length inner boundary edges. -/
theorem create_ring_zero_inner (cosD sinD : ℤ → ℚ) (center : Point)
    (outer_radius : ℚ) (N : ℕ) (hN : 1 ≤ N) (hN360 : N ≤ 360) :
    (create_ring cosD sinD center 0 outer_radius N).length = N
    ∧ ∀ s ∈ create_ring cosD sinD center 0 outer_radius N,
        (∀ p ∈ s.inner, p = center)
        ∧ 2 ≤ s.inner.length
        ∧ hasZeroLengthEdge s.inner = true := by
  have hNQ : (0 : ℚ) < (N : ℚ) := by
    exact_mod_cast Nat.lt_of_lt_of_le Nat.zero_lt_one hN
  have hΔ1 : (1 : ℚ) ≤ (360 : ℚ) / N := by
    rw [one_le_div hNQ]
    exact_mod_cast hN360
  refine ⟨by simp [create_ring], ?_⟩
  intro s hs
  rw [create_ring, List.mem_map] at hs
  obtain ⟨i, hi, rfl⟩ := hs
  have hcenter : ∀ p ∈ (sectorAngles N i).reverse.map (pointOnCircle cosD sinD center 0),
      p = center := by
    intro p hp
    rw [List.mem_map] at hp
    obtain ⟨a, _, rfl⟩ := hp
    simp [pointOnCircle]
  have hlen : 2 ≤ ((sectorAngles N i).reverse.map
      (pointOnCircle cosD sinD center 0)).length := by
    rw [List.length_map, List.length_reverse, sectorAngles, angleRange, pyRange_length]
    rw [ratFloor_eq_intFloor, ratFloor_eq_intFloor]
    have hfl : ⌊(i : ℚ) * ((360 : ℚ) / N)⌋ + 1 ≤ ⌊(i : ℚ) * ((360 : ℚ) / N) + (360 : ℚ) / N⌋ := by
      have := Int.floor_le_floor
        (add_le_add_left hΔ1 ((i : ℚ) * ((360 : ℚ) / N))
          : (i : ℚ) * ((360 : ℚ) / N) + 1 ≤ (i : ℚ) * ((360 : ℚ) / N) + (360 : ℚ) / N)
      rw [Int.floor_add_one] at this
      exact this
    omega
  exact ⟨hcenter, hlen, hasZeroLengthEdge_of_const center _ hlen hcenter⟩

/-- Witness for create_ring_zero_inner: four compartments with inner radius
zero around a concrete center. -/
theorem create_ring_zero_inner_witness :
    (create_ring (fun _ => (1 : ℚ)) (fun _ => (0 : ℚ)) ⟨5, 5⟩ 0 10 4).length = 4 :=
  (create_ring_zero_inner (fun _ => (1 : ℚ)) (fun _ => (0 : ℚ)) ⟨5, 5⟩ 10 4
    (by norm_num) (by norm_num)).1

/-- Witness for pdf_file_name_spec at a concrete base name. -/
theorem pdf_file_name_spec_witness :
    pdf_file_name ("stations".toList ++ (".csv".toList))
      = ("stations".toList).take (("stations".toList).length - 1) ++ (".pdf".toList) :=
  pdf_file_name_spec.1 ("stations".toList)

/-- A rectangular spatial extent (QgsRectangle). -/
structure Rect where
  xmin : ℚ
  xmax : ℚ
  ymin : ℚ
  ymax : ℚ
deriving DecidableEq

/-- Containment of a point in a rectangular extent, used by get_DEM_point
(line 73).  Modelled from the spec: the toolkit call
QgsGeometry.fromRect(extent).contains(point) is external; the specification
fixes its contract as a closed-rectangle, boundary-inclusive test. -/
def rectContains (r : Rect) (p : Point) : Bool :=
  decide (r.xmin ≤ p.x) && decide (p.x ≤ r.xmax)
    && decide (r.ymin ≤ p.y) && decide (p.y ≤ r.ymax)

/-- Result of the raster provider's identify call (line 80): a validity flag
and the band-value dictionary's values, a no-data cell appearing as none. -/
structure IdentifyResult where
  valid : Bool
  results : List (Option ℚ)

/-- An elevation surface: name, extent, pixel resolutions, and the external
provider's point-identify capability (out-of-extent queries yield an invalid
result or no-data values, never an exception, per the toolkit's contract). -/
structure DEM where
  name : String
  extent : Rect
  resX : ℚ
  resY : ℚ
  identify : Point → IdentifyResult

/-- get_DEM_point (lines 68-75): the first DEM in order whose extent contains
the point, else none. -/
def get_DEM_point : List DEM → Point → Option DEM
  | [], _ => none
  | dem :: rest, p =>
    if rectContains dem.extent p then some dem else get_DEM_point rest p

/-- get_height_dem (lines 77-85): if the identify request is valid, the first
non-null band value, otherwise None. -/
def get_height_dem (dem : DEM) (p : Point) : Option ℚ :=
  let request := dem.identify p
  if request.valid then request.results.findSome? id else none

/-- np.arange(start, stop, step) for positive rational step: the half-open
grid start, start+step, … below stop (length ⌈(stop-start)/step⌉). -/
def arangeQ (start stop step : ℚ) : List ℚ :=
  (List.range ((stop - start) / step).ceil.toNat).map (fun k : ℕ => start + k * step)

/-- Bounding box of a polygon vertex list (QgsGeometry.boundingBox, line
213): coordinate-wise minima and maxima over the vertices. -/
def boundingBox : List Point → Rect
  | [] => ⟨0, 0, 0, 0⟩
  | p :: ps =>
    ps.foldl (fun r q => ⟨min r.xmin q.x, max r.xmax q.x, min r.ymin q.y, max r.ymax q.y⟩)
      ⟨p.x, p.x, p.y, p.y⟩

/-- The sampling loop of lines 212-222: iterate the half-open resolution grid
over the ring's bounding box (x outer, y inner), keep the points the external
geometry engine pc reports inside the ring polygon, look up their heights,
and collect abs(pixel_height - altura_point) for the non-null ones. -/
def values_dem (pc : List Point → Point → Bool) (dem : DEM) (ring : SectorPoly)
    (altura_point : ℚ) : List ℚ :=
  let poly := ring.outer ++ ring.inner
  let extent := boundingBox poly
  (arangeQ extent.xmin extent.xmax dem.resX).flatMap fun x =>
    (arangeQ extent.ymin extent.ymax dem.resY).filterMap fun y =>
      if pc poly ⟨x, y⟩ then
        (get_height_dem dem ⟨x, y⟩).map fun pixel_height => |pixel_height - altura_point|
      else none

/-- One emitted sector feature of the rings layer (lines 238-244): station
name, 1-based sector number, reduced value d_Height (none when the sector had
no surviving samples), and the surviving-sample count n_pixels. -/
structure SectorRecord where
  name : String
  particion : ℕ
  d_Height : Option ℚ
  n_pixels : ℕ
deriving DecidableEq

/-- The per-sector loop of lines 206-244.  The accumulator average_partition
mirrors the Python variable of that name, which persists across loop
iterations: it is refreshed only when the sector has samples, and the emitted
record's d_Height reads it only under the same non-empty guard
(average_partition if values_dem else None, line 242). -/
def sectorLoop (pc : List Point → Point → Bool) (dem : DEM) (altura_point : ℚ)
    (stName : String) :
    List SectorPoly → ℕ → Option ℚ → List SectorRecord
  | [], _, _ => []
  | ring :: rest, i, average_partition =>
    let vals := values_dem pc dem ring altura_point
    let average' := if vals.isEmpty then average_partition
      else some (round1 (vals.sum / (vals.length : ℚ)))
    { name := stName, particion := i + 1,
      d_Height := if vals.isEmpty then none else average',
      n_pixels := vals.length }
      :: sectorLoop pc dem altura_point stName rest (i + 1) average'

/-- A gravimetric station: feature name and point geometry. -/
structure Station where
  name : String
  pos : Point

/-- Outcome of the per-station body of the loop at lines 191-244: skipped
with a report when no DEM covers the point or its height is unobtainable,
otherwise the list of emitted sector records. -/
inductive StationOutcome where
  | skippedNoDEM (name : String)
  | skippedNoHeight (name : String)
  | done (name : String) (records : List SectorRecord)
deriving DecidableEq

/-- The loop body of lines 191-244 for one station.  In Python the
average_partition variable has function scope and would persist from one
station into the next; the loop here restarts it at none, which is
observationally equivalent because the emitted records are independent of the
incoming accumulator for every sector (the sector-loop theorems of this file
are stated for an arbitrary accumulator value). -/
def processStation (pc : List Point → Point → Bool) (cosD sinD : ℤ → ℚ)
    (dems : List DEM) (inner_radius outer_radius : ℚ) (num_compartments : ℕ)
    (st : Station) : StationOutcome :=
  match get_DEM_point dems st.pos with
  | none => .skippedNoDEM st.name
  | some dem_selected =>
    match get_height_dem dem_selected st.pos with
    | none => .skippedNoHeight st.name
    | some altura_point =>
      .done st.name
        (sectorLoop pc dem_selected altura_point st.name
          (create_ring cosD sinD st.pos inner_radius outer_radius num_compartments)
          0 none)

/-- The station loop of lines 191-244: every station is processed in order,
skipped stations notwithstanding. -/
def processAllStations (pc : List Point → Point → Bool) (cosD sinD : ℤ → ℚ)
    (dems : List DEM) (inner_radius outer_radius : ℚ) (num_compartments : ℕ)
    (stations : List Station) : List StationOutcome :=
  stations.map (processStation pc cosD sinD dems inner_radius outer_radius num_compartments)

/-- The records carried by a station outcome. -/
def outcomeRecords : StationOutcome → List SectorRecord
  | .done _ recs => recs
  | _ => []

/-- The attribute writes of lines 227-233: one changeAttributeValue per
sector with surviving samples, keyed by the sector's column name. -/
def attrWrites (inner_radius outer_radius : ℚ) (N : ℕ) (recs : List SectorRecord) :
    List (String × ℚ) :=
  recs.filterMap fun r =>
    r.d_Height.map fun v => (column_name inner_radius outer_radius N (r.particion - 1), v)

/-- Observable output of one whole run. -/
structure RunOutput where
  diagnostic : Option String
  columnsCreated : List String
  outcomes : List StationOutcome
  ringFeatures : List SectorRecord
  attrChanges : List (String × ℚ)
  csvCreated : Bool
deriving DecidableEq

/-- process_rings (lines 160-249): when the DEM group is empty the function
prints a diagnostic and returns before creating columns, writing attributes
or emitting ring features; otherwise it creates the columns and processes
every station. -/
def process_rings_run (pc : List Point → Point → Bool) (cosD sinD : ℤ → ℚ)
    (dems : List DEM) (stations : List Station)
    (inner_radius outer_radius : ℚ) (num_compartments : ℕ) : RunOutput :=
  if dems.isEmpty then
    { diagnostic := some "No DEM layers found in the specified group.",
      columnsCreated := [], outcomes := [], ringFeatures := [],
      attrChanges := [], csvCreated := false }
  else
    let outcomes := processAllStations pc cosD sinD dems
      inner_radius outer_radius num_compartments stations
    { diagnostic := none,
      columnsCreated := addRingColumns [] inner_radius outer_radius num_compartments,
      outcomes := outcomes,
      ringFeatures := outcomes.flatMap outcomeRecords,
      attrChanges := outcomes.flatMap fun o =>
        attrWrites inner_radius outer_radius num_compartments (outcomeRecords o),
      csvCreated := false }

/-- The module top level (lines 253-257): process_rings runs first, and
export_attributes_to_csv is then invoked unconditionally; the export writes
its CSV whenever its own preconditions hold (active vector layer, saved
project), abstracted by the projectSaved flag. -/
def runScript (pc : List Point → Point → Bool) (cosD sinD : ℤ → ℚ)
    (dems : List DEM) (stations : List Station)
    (inner_radius outer_radius : ℚ) (num_compartments : ℕ)
    (projectSaved : Bool) : RunOutput :=
  let out := process_rings_run pc cosD sinD dems stations
    inner_radius outer_radius num_compartments
  { out with csvCreated := projectSaved }

/-- C1: whenever a sector's grid sampling leaves a non-empty surviving-sample
list, the emitted sector record carries exactly the arithmetic mean of the
absolute elevation differences rounded to one decimal place, and a sample
count equal to the number of surviving samples, regardless of the incoming
accumulator state. -/
theorem sector_reduce_mean (pc : List Point → Point → Bool) (dem : DEM)
    (altura_point : ℚ) (stName : String) (rings : List SectorPoly)
    (i0 : ℕ) (avg0 : Option ℚ) (k : ℕ) (ring : SectorPoly)
    (hk : rings[k]? = some ring)
    (hne : (values_dem pc dem ring altura_point).isEmpty = false) :
    (sectorLoop pc dem altura_point stName rings i0 avg0)[k]?
      = some { name := stName, particion := i0 + k + 1,
               d_Height := some (round1
                 ((values_dem pc dem ring altura_point).sum
                   / ((values_dem pc dem ring altura_point).length : ℚ))),
               n_pixels := (values_dem pc dem ring altura_point).length } := by
  induction rings generalizing i0 avg0 k with
  | nil => simp at hk
  | cons r rest ih =>
    cases k with
    | zero =>
      rw [List.getElem?_cons_zero] at hk
      have hr : r = ring := Option.some.inj hk
      subst hr
      rw [sectorLoop]
      simp [hne]
    | succ k =>
      rw [List.getElem?_cons_succ] at hk
      rw [sectorLoop]
      simp only [List.getElem?_cons_succ]
      rw [ih (i0 + 1) _ k hk]
      have harith : i0 + 1 + k + 1 = i0 + (k + 1) + 1 := by omega
      rw [harith]

/-- Grid sample: everything inside, one band value 7. -/
def pcAll : List Point → Point → Bool := fun _ _ => true

/-- Grid sample: nothing inside the polygon. -/
def pcNone : List Point → Point → Bool := fun _ _ => false

/-- A concrete 2x2 surface at resolution 1 whose provider always answers
with the single band value 7. -/
def demW : DEM :=
  { name := "D1", extent := ⟨0, 2, 0, 2⟩, resX := 1, resY := 1,
    identify := fun _ => ⟨true, [some 7]⟩ }

/-- A concrete triangular sector polygon with bounding box [0,2] x [0,2]. -/
def ringW : SectorPoly := ⟨[⟨0, 0⟩, ⟨2, 0⟩, ⟨0, 2⟩], []⟩

/-- Witness for sector_reduce_mean: four grid samples survive, each with
absolute difference 2, so the record carries round1(8/4) and count 4. -/
theorem sector_reduce_mean_witness :
    (sectorLoop pcAll demW 5 "P1" [ringW] 0 none)[0]?
      = some { name := "P1", particion := 1,
               d_Height := some (round1
                 ((values_dem pcAll demW ringW 5).sum
                   / ((values_dem pcAll demW ringW 5).length : ℚ))),
               n_pixels := (values_dem pcAll demW ringW 5).length } :=
  sector_reduce_mean pcAll demW 5 "P1" [ringW] 0 none 0 ringW (by decide) (by decide)

/-- C3: a sector whose sampling leaves no surviving samples is emitted as
Undefined (d_Height none) with n_pixels 0, for every incoming accumulator
state — in particular the record never carries a mean computed for an earlier
sector, and the loop is total (no exception). -/
theorem sector_empty_undefined (pc : List Point → Point → Bool) (dem : DEM)
    (altura_point : ℚ) (stName : String) (rings : List SectorPoly)
    (i0 : ℕ) (avg0 : Option ℚ) (k : ℕ) (ring : SectorPoly)
    (hk : rings[k]? = some ring)
    (hem : (values_dem pc dem ring altura_point).isEmpty = true) :
    (sectorLoop pc dem altura_point stName rings i0 avg0)[k]?
      = some { name := stName, particion := i0 + k + 1,
               d_Height := none, n_pixels := 0 } := by
  induction rings generalizing i0 avg0 k with
  | nil => simp at hk
  | cons r rest ih =>
    cases k with
    | zero =>
      rw [List.getElem?_cons_zero] at hk
      have hr : r = ring := Option.some.inj hk
      subst hr
      rw [sectorLoop]
      have hnil : values_dem pc dem r altura_point = [] := List.isEmpty_iff.mp hem
      simp [hem, hnil]
    | succ k =>
      rw [List.getElem?_cons_succ] at hk
      rw [sectorLoop]
      simp only [List.getElem?_cons_succ]
      rw [ih (i0 + 1) _ k hk]
      have harith : i0 + 1 + k + 1 = i0 + (k + 1) + 1 := by omega
      rw [harith]

/-- Witness for sector_empty_undefined: with an excluding containment test
and a stale accumulator value 99, the emitted record is still Undefined with
count 0. -/
theorem sector_empty_undefined_witness :
    (sectorLoop pcNone demW 5 "P2" [ringW] 0 (some 99))[0]?
      = some { name := "P2", particion := 1, d_Height := none, n_pixels := 0 } :=
  sector_empty_undefined pcNone demW 5 "P2" [ringW] 0 (some 99) 0 ringW
    (by decide) (by decide)

/-- C4: get_DEM_point returns none exactly when no extent contains the point,
any returned surface is the first one in iteration order whose
boundary-inclusive extent test passes, a point satisfying the closed-rectangle
inequalities passes the test, and for [A, B] both containing the point the
result is A. -/
theorem get_DEM_point_first_match (dems : List DEM) (p : Point) :
    (get_DEM_point dems p = none ↔ ∀ d ∈ dems, rectContains d.extent p = false)
    ∧ (∀ d, get_DEM_point dems p = some d →
        ∃ i : ℕ, ∃ hi : i < dems.length,
          dems.get ⟨i, hi⟩ = d ∧ rectContains d.extent p = true
          ∧ ∀ j : ℕ, ∀ hj : j < dems.length, j < i →
              rectContains (dems.get ⟨j, hj⟩).extent p = false)
    ∧ (∀ r : Rect, r.xmin ≤ p.x → p.x ≤ r.xmax → r.ymin ≤ p.y → p.y ≤ r.ymax →
        rectContains r p = true)
    ∧ (∀ A B : DEM, rectContains A.extent p = true → rectContains B.extent p = true →
        get_DEM_point [A, B] p = some A) := by
  refine ⟨?_, ?_, ?_, ?_⟩
  · induction dems with
    | nil => simp [get_DEM_point]
    | cons dem rest ih =>
      by_cases hc : rectContains dem.extent p = true
      · simp [get_DEM_point, hc]
      · rw [Bool.not_eq_true] at hc
        simp [get_DEM_point, hc, ih]
  · induction dems with
    | nil => intro d hd; simp [get_DEM_point] at hd
    | cons dem rest ih =>
      intro d hd
      by_cases hc : rectContains dem.extent p = true
      · rw [get_DEM_point, if_pos hc] at hd
        have hde : dem = d := Option.some.inj hd
        subst hde
        exact ⟨0, by simp, rfl, hc, fun j hj hj0 => absurd hj0 (Nat.not_lt_zero j)⟩
      · rw [Bool.not_eq_true] at hc
        rw [get_DEM_point, if_neg (by simp [hc])] at hd
        obtain ⟨i, hi, hget, hcont, hbefore⟩ := ih d hd
        refine ⟨i + 1, by simpa using Nat.succ_lt_succ hi, by simpa using hget, hcont, ?_⟩
        intro j hj hji
        cases j with
        | zero => simpa using hc
        | succ j =>
          have hj' : j < rest.length := by simpa using hj
          simpa using hbefore j hj' (Nat.lt_of_succ_lt_succ hji)
  · intro r h1 h2 h3 h4
    simp [rectContains, h1, h2, h3, h4]
  · intro A B hA _
    simp [get_DEM_point, hA]

/-- A second concrete surface whose extent also contains (1, 1). -/
def demW2 : DEM :=
  { name := "D2", extent := ⟨0, 3, 0, 3⟩, resX := 1, resY := 1,
    identify := fun _ => ⟨true, [some 9]⟩ }

/-- Witness for get_DEM_point_first_match: both extents contain (1, 1) and
the first surface wins. -/
theorem get_DEM_point_first_match_witness :
    get_DEM_point [demW, demW2] ⟨1, 1⟩ = some demW :=
  (get_DEM_point_first_match [demW, demW2] ⟨1, 1⟩).2.2.2 demW demW2
    (by decide) (by decide)

/-- C7: get_height_dem is a pure total function into Option; an invalid
identify request yields none, a returned value is one of the request's band
values under a valid request, and a request whose band values are all the
no-data sentinel also yields none — exceptions cannot occur. -/
theorem get_height_dem_no_exception (dem : DEM) (p : Point) :
    ((dem.identify p).valid = false → get_height_dem dem p = none)
    ∧ (∀ v : ℚ, get_height_dem dem p = some v →
        (dem.identify p).valid = true ∧ some v ∈ (dem.identify p).results)
    ∧ ((∀ r ∈ (dem.identify p).results, r = none) → get_height_dem dem p = none) := by
  refine ⟨?_, ?_, ?_⟩
  · intro hv
    simp [get_height_dem, hv]
  · intro v hv
    by_cases hval : (dem.identify p).valid = true
    · refine ⟨hval, ?_⟩
      rw [get_height_dem] at hv
      simp only [hval, if_true] at hv
      obtain ⟨l₁, a, l₂, hsplit, ha, -⟩ := List.findSome?_eq_some_iff.mp hv
      rw [hsplit]
      have hav : a = some v := ha
      rw [← hav]
      simp
    · rw [Bool.not_eq_true] at hval
      rw [get_height_dem] at hv
      simp [hval] at hv
  · intro hall
    rw [get_height_dem]
    by_cases hval : (dem.identify p).valid = true
    · simp only [hval, if_true]
      rw [List.findSome?_eq_none_iff]
      intro x hx
      simpa using hall x hx
    · rw [Bool.not_eq_true] at hval
      simp [hval]

/-- A surface whose provider reports an invalid identify result everywhere
(a point outside the readable extent). -/
def demInvalid : DEM :=
  { name := "X", extent := ⟨0, 1, 0, 1⟩, resX := 1, resY := 1,
    identify := fun _ => ⟨false, []⟩ }

/-- Witness for get_height_dem_no_exception: an invalid request is a normal
NoData result. -/
theorem get_height_dem_no_exception_witness :
    get_height_dem demInvalid ⟨5, 5⟩ = none :=
  (get_height_dem_no_exception demInvalid ⟨5, 5⟩).1 rfl

/-- C8: the station loop produces one outcome per station in order; a station
with no covering surface becomes skippedNoDEM, a station whose reference
elevation is unobtainable becomes skippedNoHeight, and in both cases the rest
of the stations are still processed identically (the outcome list is the
elementwise image of the station list). -/
theorem station_skip_continue (pc : List Point → Point → Bool) (cosD sinD : ℤ → ℚ)
    (dems : List DEM) (inner_radius outer_radius : ℚ) (N : ℕ)
    (stations : List Station) :
    (processAllStations pc cosD sinD dems inner_radius outer_radius N stations).length
        = stations.length
    ∧ (∀ k : ℕ,
        (processAllStations pc cosD sinD dems inner_radius outer_radius N stations)[k]?
          = (stations[k]?).map
              (processStation pc cosD sinD dems inner_radius outer_radius N))
    ∧ (∀ st : Station, get_DEM_point dems st.pos = none →
        processStation pc cosD sinD dems inner_radius outer_radius N st
          = .skippedNoDEM st.name)
    ∧ (∀ st : Station, ∀ dem : DEM, get_DEM_point dems st.pos = some dem →
        get_height_dem dem st.pos = none →
        processStation pc cosD sinD dems inner_radius outer_radius N st
          = .skippedNoHeight st.name) := by
  refine ⟨by simp [processAllStations], ?_, ?_, ?_⟩
  · intro k
    simp [processAllStations, List.getElem?_map]
  · intro st h
    simp [processStation, h]
  · intro st dem h1 h2
    simp [processStation, h1, h2]

/-- Witness for station_skip_continue: with no surfaces covering it, the
station is skipped and reported. -/
theorem station_skip_continue_witness :
    processStation pcAll (fun _ => (1 : ℚ)) (fun _ => (0 : ℚ)) [] (533/10) (1701/10) 6
      ⟨"P1", ⟨9, 9⟩⟩ = .skippedNoDEM "P1" :=
  (station_skip_continue pcAll (fun _ => (1 : ℚ)) (fun _ => (0 : ℚ)) [] (533/10) (1701/10) 6
    []).2.2.1 ⟨"P1", ⟨9, 9⟩⟩ rfl

/-- C5 as stated fails: with no surfaces at all the ring processing aborts
with a diagnostic and emits nothing, yet the unconditional top-level call to
export_attributes_to_csv still creates the tabular export file. -/
theorem no_dems_csv_claim_cex :
    (runScript pcAll (fun _ => (1 : ℚ)) (fun _ => (0 : ℚ)) [] [⟨"P1", ⟨0, 0⟩⟩]
        (533/10) (1701/10) 6 true).csvCreated = true
    ∧ (runScript pcAll (fun _ => (1 : ℚ)) (fun _ => (0 : ℚ)) [] [⟨"P1", ⟨0, 0⟩⟩]
        (533/10) (1701/10) 6 true).diagnostic
        = some "No DEM layers found in the specified group." :=
  ⟨rfl, rfl⟩

/-- C5 (amended): when no elevation surfaces are found, the run reports the
diagnostic and ring processing produces no partial output — no columns, no
outcomes, no attribute writes, no sector features — but the tabular export
still runs afterwards and creates its CSV file whenever its own preconditions
hold. -/
theorem no_dems_abort_behavior (pc : List Point → Point → Bool) (cosD sinD : ℤ → ℚ)
    (stations : List Station) (inner_radius outer_radius : ℚ) (N : ℕ)
    (projectSaved : Bool) :
    runScript pc cosD sinD [] stations inner_radius outer_radius N projectSaved
      = { diagnostic := some "No DEM layers found in the specified group.",
          columnsCreated := [], outcomes := [], ringFeatures := [],
          attrChanges := [], csvCreated := projectSaved } := rfl

end HammerNet

